import Mathlib

/-!
Verification of the Hangul grapheme decomposer (`src/js/split-grapheme.js`).

Shallow embedding of the JavaScript source.  Modelling conventions:

* A JS string is its list of UTF-16 code units (`JSString := List Nat`).
* A JS number is an exact rational (`ℚ`).  Every number in this program is an
  integer of magnitude below 2^17, or a quotient of such an integer by 28 or
  588; for those values IEEE doubles round to values whose `Math.floor`,
  `Math.trunc` and `%` agree with the exact rational results (the exact value
  is never closer than 1/588 to an integer unless it is one, far above the
  relative rounding error of ~2^-53), so exact rationals are a faithful model.
* `Math.floor` is `Int.floor`; the JS binary `%` is the truncated remainder
  (`jsRem`); `String.fromCharCode` applies ToUint16 (truncate, then modulo
  2^16 into `[0, 2^16)`).
* JS exceptions are modelled with `Except String`; `Array.prototype.reduce`
  with `push`, whose callback may throw and then aborts the whole fold, is
  `mapExcept`.
* `[...word]` (string iteration) groups well-formed surrogate pairs and
  leaves every other unit alone (`splitWord`).
* The runtime `typeof unicode !== "number"` guards of the three index
  functions collapse into the Lean type signature (`ℚ` input): they cannot
  fire in a typed embedding.
-/

namespace SplitGrapheme

/-- A JS string: its list of UTF-16 code units. -/
abbrev JSString := List Nat

/-- JS `Math.trunc` on an exact rational (round toward zero). -/
def jsTrunc (q : ℚ) : ℤ :=
  if 0 ≤ q then ⌊q⌋ else -⌊-q⌋

/-- JS binary `%` on numbers: the truncated remainder
`n - d * Math.trunc(n / d)` (sign follows the dividend), on exact rationals. -/
def jsRem (n d : ℚ) : ℚ :=
  n - d * (jsTrunc (n / d) : ℚ)

/-- JS `Math.floor`, kept inside the JS number type. -/
def jsFloor (q : ℚ) : ℚ :=
  (⌊q⌋ : ℚ)

/-- ECMAScript ToUint16, used by `String.fromCharCode`: truncate, then reduce
modulo 2^16 into `[0, 2^16)`. -/
def toUint16 (x : ℚ) : Nat :=
  ((jsTrunc x).emod 65536).toNat

/-- `const korGAUnicode = 0xAC00`. -/
def korGAUnicode : ℚ := 0xAC00

/-- `const [firstInitial, firstMedial, firstFinal] = [0x1100, 0x1161, 0x11A7]`. -/
def firstInitial : ℚ := 0x1100

/-- Second element of the base triple: `0x1161`. -/
def firstMedial : ℚ := 0x1161

/-- Third element of the base triple: `0x11A7`. -/
def firstFinal : ℚ := 0x11A7

/-- `const [initialCount, medialCount, finalCount] = [18, 21, 28]`.
(`initialCount` is declared in the source but never used by it.) -/
def initialCount : ℚ := 18

/-- Number of medial vowels used by the index arithmetic. -/
def medialCount : ℚ := 21

/-- Number of final consonants (including "none") used by the arithmetic. -/
def finalCount : ℚ := 28

/-- One UTF-16 unit matches the regex character class `[ㄱ-ㅎ|가-힣]`.
The class consists of the range U+3131–U+314E, the LITERAL character `|`
(U+007C) — inside a character class `|` is not alternation — and the range
U+AC00–U+D7A3. -/
def inKoreanClass (u : Nat) : Bool :=
  (0x3131 ≤ u && u ≤ 0x314E) || u == 0x7C || (0xAC00 ≤ u && u ≤ 0xD7A3)

/-- `letter.match(/[ㄱ-ㅎ|가-힣]/g)` is truthy iff some UTF-16 unit of
`letter` is in the class (the regex has no `u` flag, so it scans per unit). -/
def matchKorean (letter : JSString) : Bool :=
  letter.any inKoreanClass

/-- `const splitWord = (word) => [...word]`: string iteration at code-point
granularity — a unit pairs with its successor exactly when they form a
well-formed surrogate pair (high U+D800–U+DBFF followed by low
U+DC00–U+DFFF); every other unit is its own letter. -/
def splitWord : JSString → List JSString
  | [] => []
  | [h] => [[h]]
  | h :: l :: rest =>
    if (0xD800 ≤ h ∧ h ≤ 0xDBFF) ∧ (0xDC00 ≤ l ∧ l ≤ 0xDFFF) then
      [h, l] :: splitWord rest
    else
      [h] :: splitWord (l :: rest)

/-- `letter.codePointAt(0)`: combine a leading well-formed surrogate pair,
otherwise return the first unit.  (Only reached by `getUnicode` on
single-unit strings, where it returns that unit; the `[]` case never runs —
`getUnicode` has already thrown on the empty string.) -/
def codePointAt0 : JSString → Nat
  | [] => 0
  | [h] => h
  | h :: l :: _ =>
    if (0xD800 ≤ h ∧ h ≤ 0xDBFF) ∧ (0xDC00 ≤ l ∧ l ≤ 0xDFFF) then
      0x10000 + (h - 0xD800) * 0x400 + (l - 0xDC00)
    else
      h

/-- `getUnicode`: throw unless the string is exactly one UTF-16 unit long
(JS `.length` counts units, not code points), else `codePointAt(0)`. -/
def getUnicode (letter : JSString) : Except String ℚ :=
  if letter.length ≠ 1 then
    Except.error "매개 변수는 한 글자여야 합니다."
  else
    Except.ok (codePointAt0 letter : ℚ)

/-- `getInitialIndex`:
`Math.floor((unicode - korGAUnicode) / (medialCount * finalCount))`. -/
def getInitialIndex (unicode : ℚ) : ℚ :=
  jsFloor ((unicode - korGAUnicode) / (medialCount * finalCount))

/-- `getMedialIndex`:
`Math.floor((unicode - korGAUnicode) / finalCount % medialCount)`
(`/` and `%` associate left in JS). -/
def getMedialIndex (unicode : ℚ) : ℚ :=
  jsFloor (jsRem ((unicode - korGAUnicode) / finalCount) medialCount)

/-- `getFinalIndex`: `Math.floor((unicode - korGAUnicode) % finalCount)`. -/
def getFinalIndex (unicode : ℚ) : ℚ :=
  jsFloor (jsRem (unicode - korGAUnicode) finalCount)

/-- The record `{initial, medial, final}` returned by `splitGrapheme`. -/
structure Grapheme where
  initial : ℚ
  medial : ℚ
  final : ℚ
deriving DecidableEq

/-- `splitGrapheme(unicode)`: the three indices. -/
def splitGrapheme (unicode : ℚ) : Grapheme :=
  { initial := getInitialIndex unicode
    medial := getMedialIndex unicode
    final := getFinalIndex unicode }

/-- `getLetterFromUnicode = (unicode) => String.fromCharCode(unicode)`:
a one-unit string holding ToUint16 of the argument. -/
def getLetterFromUnicode (unicode : ℚ) : JSString :=
  [toUint16 unicode]

/-- `getInitialLetter(unicode) = getLetterFromUnicode(unicode + firstInitial)`. -/
def getInitialLetter (unicode : ℚ) : JSString :=
  getLetterFromUnicode (unicode + firstInitial)

/-- `getMedialLetter(unicode) = getLetterFromUnicode(unicode + firstMedial)`. -/
def getMedialLetter (unicode : ℚ) : JSString :=
  getLetterFromUnicode (unicode + firstMedial)

/-- `getFinalLetter(unicode) = getLetterFromUnicode(unicode + firstFinal)`. -/
def getFinalLetter (unicode : ℚ) : JSString :=
  getLetterFromUnicode (unicode + firstFinal)

/-- One output record of `getGraphemeList`.  The Korean branch pushes
`{isKorean: true, initial, medial, final}`; the non-Korean branch pushes
`{isKorean: false, initial: letter}` with `medial`/`final` absent
(modelled as `none`). -/
structure GraphemeResult where
  isKorean : Bool
  initial : JSString
  medial : Option JSString
  final : Option JSString
deriving DecidableEq

/-- The body of the `reduce` callback of `getGraphemeList`, for one letter.
`getUnicode` may throw, so the result is in `Except`. -/
def decomposeLetter (letter : JSString) : Except String GraphemeResult :=
  if matchKorean letter then
    match getUnicode letter with
    | Except.error e => Except.error e
    | Except.ok u =>
      let g := splitGrapheme u
      Except.ok
        { isKorean := true
          initial := getInitialLetter g.initial
          medial := some (getMedialLetter g.medial)
          final := some (getFinalLetter g.final) }
  else
    Except.ok
      { isKorean := false
        initial := letter
        medial := none
        final := none }

/-- `reduce` + `push` with a callback that may throw: collect the outputs in
order, aborting on the first exception. -/
def mapExcept (f : α → Except String β) : List α → Except String (List β)
  | [] => Except.ok []
  | a :: as =>
    match f a with
    | Except.error e => Except.error e
    | Except.ok b =>
      match mapExcept f as with
      | Except.error e => Except.error e
      | Except.ok bs => Except.ok (b :: bs)

/-- `getGraphemeList(word)`: throw on the empty string, else decompose each
letter of `splitWord(word)` in order. -/
def getGraphemeList (word : JSString) : Except String (List GraphemeResult) :=
  if word.length < 1 then
    Except.error "매개 변수는 한 글자이상이어야 합니다."
  else
    mapExcept decomposeLetter (splitWord word)

/-- The (total) value `decomposeLetter` returns on every letter produced by
`splitWord` — proved below (`decomposeLetter_eq_ok`): on such letters
`getUnicode` never throws. -/
def decomposeLetterOk (letter : JSString) : GraphemeResult :=
  if matchKorean letter then
    let g := splitGrapheme (codePointAt0 letter : ℚ)
    { isKorean := true
      initial := getInitialLetter g.initial
      medial := some (getMedialLetter g.medial)
      final := some (getFinalLetter g.final) }
  else
    { isKorean := false
      initial := letter
      medial := none
      final := none }

/-- Number of code points of a JS string, as counted by string iteration. -/
def codePointCount (word : JSString) : Nat :=
  (splitWord word).length

end SplitGrapheme
namespace SplitGrapheme

/-- `Math.trunc` of an integer is itself. -/
lemma jsTrunc_intCast (n : ℤ) : jsTrunc (n : ℚ) = n := by
  unfold jsTrunc
  split
  · exact Int.floor_intCast n
  · rw [← Int.cast_neg, Int.floor_intCast]
    ring

/-- `Math.trunc` of an integer divided by a natural is truncating division. -/
lemma jsTrunc_intCast_div_natCast (p : ℤ) (d : ℕ) :
    jsTrunc ((p : ℚ) / (d : ℚ)) = Int.tdiv p d := by
  rcases Nat.eq_zero_or_pos d with hd | hd
  · subst hd
    simp [jsTrunc]
  · have hdQ : (0 : ℚ) < (d : ℚ) := by exact_mod_cast hd
    have hdZ : (0 : ℤ) ≤ (d : ℤ) := by positivity
    rcases le_or_lt 0 p with hp | hp
    · have h0 : (0 : ℚ) ≤ (p : ℚ) / (d : ℚ) := by
        apply div_nonneg _ hdQ.le
        exact_mod_cast hp
      rw [jsTrunc, if_pos h0, Rat.floor_intCast_div_natCast, Int.tdiv_eq_ediv hp hdZ]
    · have h0 : ¬ (0 : ℚ) ≤ (p : ℚ) / (d : ℚ) := by
        rw [not_le]
        apply div_neg_of_neg_of_pos _ hdQ
        exact_mod_cast hp
      rw [jsTrunc, if_neg h0]
      have hcast : -((p : ℚ) / (d : ℚ)) = ((-p : ℤ) : ℚ) / (d : ℚ) := by
        push_cast
        ring
      rw [hcast, Rat.floor_intCast_div_natCast,
        ← Int.tdiv_eq_ediv (by omega) hdZ, Int.neg_tdiv, neg_neg]

/-- `getInitialIndex` on an integer code point, as Euclidean division. -/
lemma getInitialIndex_natCast (c : ℕ) :
    getInitialIndex (c : ℚ) = ((((c : ℤ) - 0xAC00) / 588 : ℤ) : ℚ) := by
  unfold getInitialIndex jsFloor korGAUnicode medialCount finalCount
  have h1 : ((c : ℚ) - 0xAC00) / (21 * 28) = (((c : ℤ) - 0xAC00 : ℤ) : ℚ) / ((588 : ℕ) : ℚ) := by
    push_cast
    ring
  rw [h1, Rat.floor_intCast_div_natCast]
  norm_num

/-- `getMedialIndex` on an integer code point, in integer arithmetic. -/
lemma getMedialIndex_natCast (c : ℕ) :
    getMedialIndex (c : ℚ) =
      ((((c : ℤ) - 0xAC00) / 28 - 21 * Int.tdiv ((c : ℤ) - 0xAC00) 588 : ℤ) : ℚ) := by
  unfold getMedialIndex jsFloor jsRem korGAUnicode medialCount finalCount
  have h1 : ((c : ℚ) - 0xAC00) / 28 / 21 = (((c : ℤ) - 0xAC00 : ℤ) : ℚ) / ((588 : ℕ) : ℚ) := by
    push_cast
    ring
  rw [h1, jsTrunc_intCast_div_natCast, show ((588 : ℕ) : ℤ) = 588 from rfl]
  have h2 : ((c : ℚ) - 0xAC00) / 28 - 21 * ((Int.tdiv ((c : ℤ) - 0xAC00) 588 : ℤ) : ℚ) =
      (((c : ℤ) - 0xAC00 : ℤ) : ℚ) / ((28 : ℕ) : ℚ) -
        ((21 * Int.tdiv ((c : ℤ) - 0xAC00) 588 : ℤ) : ℚ) := by
    push_cast
    ring
  rw [h2, Int.floor_sub_int, Rat.floor_intCast_div_natCast]
  push_cast
  ring

/-- `getFinalIndex` on an integer code point, in integer arithmetic. -/
lemma getFinalIndex_natCast (c : ℕ) :
    getFinalIndex (c : ℚ) =
      (((c : ℤ) - 0xAC00 - 28 * Int.tdiv ((c : ℤ) - 0xAC00) 28 : ℤ) : ℚ) := by
  unfold getFinalIndex jsFloor jsRem korGAUnicode finalCount
  have h1 : ((c : ℚ) - 0xAC00) / 28 = (((c : ℤ) - 0xAC00 : ℤ) : ℚ) / ((28 : ℕ) : ℚ) := by
    push_cast
    ring
  rw [h1, jsTrunc_intCast_div_natCast, show ((28 : ℕ) : ℤ) = 28 from rfl]
  have h2 : ((c : ℚ) - 0xAC00) - 28 * ((Int.tdiv ((c : ℤ) - 0xAC00) 28 : ℤ) : ℚ) =
      (((c : ℤ) - 0xAC00 - 28 * Int.tdiv ((c : ℤ) - 0xAC00) 28 : ℤ) : ℚ) := by
    push_cast
    ring
  rw [h2, Int.floor_intCast]

/-- ToUint16 of an integer value. -/
lemma toUint16_intCast (n : ℤ) : toUint16 (n : ℚ) = (n.emod 65536).toNat := by
  rw [toUint16, jsTrunc_intCast]

end SplitGrapheme
namespace SplitGrapheme

/-- `getInitialLetter` of an integer index. -/
lemma getInitialLetter_intCast (n : ℤ) :
    getInitialLetter ((n : ℤ) : ℚ) = [((n + 0x1100).emod 65536).toNat] := by
  unfold getInitialLetter getLetterFromUnicode firstInitial
  rw [show ((n : ℤ) : ℚ) + 4352 = ((n + 4352 : ℤ) : ℚ) by push_cast; ring, toUint16_intCast]

/-- `getMedialLetter` of an integer index. -/
lemma getMedialLetter_intCast (n : ℤ) :
    getMedialLetter ((n : ℤ) : ℚ) = [((n + 0x1161).emod 65536).toNat] := by
  unfold getMedialLetter getLetterFromUnicode firstMedial
  rw [show ((n : ℤ) : ℚ) + 4449 = ((n + 4449 : ℤ) : ℚ) by push_cast; ring, toUint16_intCast]

/-- `getFinalLetter` of an integer index. -/
lemma getFinalLetter_intCast (n : ℤ) :
    getFinalLetter ((n : ℤ) : ℚ) = [((n + 0x11A7).emod 65536).toNat] := by
  unfold getFinalLetter getLetterFromUnicode firstFinal
  rw [show ((n : ℤ) : ℚ) + 4519 = ((n + 4519 : ℤ) : ℚ) by push_cast; ring, toUint16_intCast]

/-- String iteration of a single unit yields that unit as the only letter. -/
lemma splitWord_single (u : ℕ) : splitWord [u] = [[u]] := rfl

/-- `codePointAt(0)` of a single unit is that unit. -/
lemma codePointAt0_single (u : ℕ) : codePointAt0 [u] = u := rfl

/-- On a single Korean-classified unit the callback runs the whole
decomposition pipeline and cannot throw. -/
lemma decomposeLetter_single_korean (u : ℕ) (hu : matchKorean [u] = true) :
    decomposeLetter [u] = Except.ok
      { isKorean := true
        initial := getInitialLetter (getInitialIndex (u : ℚ))
        medial := some (getMedialLetter (getMedialIndex (u : ℚ)))
        final := some (getFinalLetter (getFinalIndex (u : ℚ))) } := by
  simp [decomposeLetter, hu, getUnicode, codePointAt0_single, splitGrapheme]

/-- Full evaluation of `getGraphemeList` on one Korean-classified unit, with
every JS-number computation reduced to integer arithmetic. -/
lemma getGraphemeList_single_eval (u : ℕ) (hu : matchKorean [u] = true) :
    getGraphemeList [u] = Except.ok
      [{ isKorean := true
         initial := [((((u : ℤ) - 0xAC00) / 588 + 0x1100).emod 65536).toNat]
         medial := some [((((u : ℤ) - 0xAC00) / 28 -
           21 * Int.tdiv ((u : ℤ) - 0xAC00) 588 + 0x1161).emod 65536).toNat]
         final := some [(((u : ℤ) - 0xAC00 -
           28 * Int.tdiv ((u : ℤ) - 0xAC00) 28 + 0x11A7).emod 65536).toNat] }] := by
  unfold getGraphemeList
  rw [splitWord_single, if_neg (by simp), mapExcept, decomposeLetter_single_korean u hu]
  simp only [mapExcept]
  rw [getInitialIndex_natCast, getMedialIndex_natCast, getFinalIndex_natCast,
    getInitialLetter_intCast, getMedialLetter_intCast, getFinalLetter_intCast]

end SplitGrapheme
namespace SplitGrapheme

/-- Every letter produced by string iteration is a single unit or a
well-formed surrogate pair. -/
lemma splitWord_shape (w : JSString) :
    ∀ letter ∈ splitWord w, (∃ u, letter = [u]) ∨
      (∃ h l, letter = [h, l] ∧ 0xD800 ≤ h ∧ h ≤ 0xDBFF ∧ 0xDC00 ≤ l ∧ l ≤ 0xDFFF) := by
  induction w using splitWord.induct with
  | case1 =>
    intro letter hmem
    simp [splitWord] at hmem
  | case2 h =>
    intro letter hmem
    simp [splitWord] at hmem
    exact Or.inl ⟨h, hmem⟩
  | case3 h l rest hcond ih =>
    intro letter hmem
    rw [splitWord, if_pos hcond] at hmem
    rcases List.mem_cons.mp hmem with rfl | hmem
    · exact Or.inr ⟨h, l, rfl, hcond.1.1, hcond.1.2, hcond.2.1, hcond.2.2⟩
    · exact ih letter hmem
  | case4 h l rest hcond ih =>
    intro letter hmem
    rw [splitWord, if_neg hcond] at hmem
    rcases List.mem_cons.mp hmem with rfl | hmem
    · exact Or.inl ⟨h, rfl⟩
    · exact ih letter hmem

/-- A surrogate pair never matches the Korean character class: every range in
the class lies below U+D800. -/
lemma matchKorean_pair (h l : ℕ) (hh1 : 0xD800 ≤ h) (hl1 : 0xDC00 ≤ l) :
    matchKorean [h, l] = false := by
  simp [matchKorean, inKoreanClass]
  omega

/-- On every letter shaped as string iteration produces, the `reduce`
callback returns normally: the length guard of `getUnicode` cannot fire. -/
lemma decomposeLetter_eq_ok (letter : JSString)
    (hshape : (∃ u, letter = [u]) ∨
      (∃ h l, letter = [h, l] ∧ 0xD800 ≤ h ∧ h ≤ 0xDBFF ∧ 0xDC00 ≤ l ∧ l ≤ 0xDFFF)) :
    decomposeLetter letter = Except.ok (decomposeLetterOk letter) := by
  rcases hshape with ⟨u, rfl⟩ | ⟨h, l, rfl, hh1, hh2, hl1, hl2⟩
  · by_cases hm : matchKorean [u] <;>
      simp [decomposeLetter, decomposeLetterOk, hm, getUnicode, codePointAt0_single]
  · simp [decomposeLetter, decomposeLetterOk, matchKorean_pair h l hh1 hl1]

/-- If the callback succeeds on every element, the fold collects exactly the
mapped values, in order. -/
lemma mapExcept_eq_map {α β : Type} {f : α → Except String β} {g : α → β} :
    ∀ l : List α, (∀ a ∈ l, f a = Except.ok (g a)) →
      mapExcept f l = Except.ok (l.map g)
  | [], _ => rfl
  | a :: as, hall => by
    rw [mapExcept, hall a (by simp),
      mapExcept_eq_map as (fun b hb => hall b (by simp [hb])), List.map]

/-- On every non-empty input the decomposer runs to completion and returns
one record per letter of the iteration, in order. -/
lemma getGraphemeList_eq_map (word : JSString) (h : word ≠ []) :
    getGraphemeList word = Except.ok ((splitWord word).map decomposeLetterOk) := by
  unfold getGraphemeList
  rw [if_neg (by simp [List.length_pos, h]), mapExcept_eq_map]
  intro a ha
  exact decomposeLetter_eq_ok a (splitWord_shape word a ha)

end SplitGrapheme
namespace SplitGrapheme

/-- C1: for every code point `c` in `[0xAC00, 0xD7A3]`, the three
index-extraction operations satisfy
`initialIndex(c)*21*28 + medialIndex(c)*28 + finalIndex(c) = c - 0xAC00`. -/
theorem roundTrip_arithmetic (c : ℕ) (h1 : 0xAC00 ≤ c) (h2 : c ≤ 0xD7A3) :
    getInitialIndex (c : ℚ) * (21 * 28) + getMedialIndex (c : ℚ) * 28 +
      getFinalIndex (c : ℚ) = (c : ℚ) - 0xAC00 := by
  have hc : (0xAC00 : ℤ) ≤ (c : ℤ) := by exact_mod_cast h1
  have hp : (0 : ℤ) ≤ (c : ℤ) - 0xAC00 := by omega
  rw [getInitialIndex_natCast, getMedialIndex_natCast, getFinalIndex_natCast,
    Int.tdiv_eq_ediv hp (by norm_num : (0 : ℤ) ≤ 588),
    Int.tdiv_eq_ediv hp (by norm_num : (0 : ℤ) ≤ 28)]
  exact_mod_cast congrArg (fun z : ℤ => (z : ℚ))
    (by omega : ((c : ℤ) - 0xAC00) / 588 * (21 * 28) +
      (((c : ℤ) - 0xAC00) / 28 - 21 * (((c : ℤ) - 0xAC00) / 588)) * 28 +
      ((c : ℤ) - 0xAC00 - 28 * (((c : ℤ) - 0xAC00) / 28)) = (c : ℤ) - 0xAC00)

/-- Witness for C1 at the syllable "한" (U+D55C). -/
theorem roundTrip_arithmetic_witness :
    getInitialIndex ((0xD55C : ℕ) : ℚ) * (21 * 28) +
      getMedialIndex ((0xD55C : ℕ) : ℚ) * 28 + getFinalIndex ((0xD55C : ℕ) : ℚ) =
      ((0xD55C : ℕ) : ℚ) - 0xAC00 :=
  roundTrip_arithmetic 0xD55C (by decide) (by decide)

/-- C2, counterexample: at the in-range code point U+D558 ("하") the initial
index is 18, so the claimed bound `initialIndex(c) ∈ [0, 18)` fails — the
constant `initialCount = 18` of the source undercounts the 19 initials of the
Unicode syllable arithmetic. -/
theorem initialIndex_eq_18_at_D558 :
    getInitialIndex ((0xD558 : ℕ) : ℚ) = 18 ∧
      ¬ getInitialIndex ((0xD558 : ℕ) : ℚ) < 18 := by
  rw [getInitialIndex_natCast,
    show (((0xD558 : ℕ) : ℤ) - 0xAC00) / 588 = 18 from by decide]
  norm_num

/-- C2, amended: for every code point in `[0xAC00, 0xD7A3]` the computed
indices are integers with `initial ∈ [0,19)`, `medial ∈ [0,21)` and
`final ∈ [0,28)`. -/
theorem indices_bounds (c : ℕ) (h1 : 0xAC00 ≤ c) (h2 : c ≤ 0xD7A3) :
    ∃ a b f : ℤ, getInitialIndex (c : ℚ) = (a : ℚ) ∧
      getMedialIndex (c : ℚ) = (b : ℚ) ∧ getFinalIndex (c : ℚ) = (f : ℚ) ∧
      0 ≤ a ∧ a < 19 ∧ 0 ≤ b ∧ b < 21 ∧ 0 ≤ f ∧ f < 28 := by
  have hc1 : (0xAC00 : ℤ) ≤ (c : ℤ) := by exact_mod_cast h1
  have hc2 : (c : ℤ) ≤ 0xD7A3 := by exact_mod_cast h2
  have hp : (0 : ℤ) ≤ (c : ℤ) - 0xAC00 := by omega
  refine ⟨((c : ℤ) - 0xAC00) / 588,
    ((c : ℤ) - 0xAC00) / 28 - 21 * Int.tdiv ((c : ℤ) - 0xAC00) 588,
    (c : ℤ) - 0xAC00 - 28 * Int.tdiv ((c : ℤ) - 0xAC00) 28,
    getInitialIndex_natCast c, getMedialIndex_natCast c, getFinalIndex_natCast c,
    ?_, ?_, ?_, ?_, ?_, ?_⟩
  · omega
  · omega
  · rw [Int.tdiv_eq_ediv hp (by norm_num : (0 : ℤ) ≤ 588)]
    omega
  · rw [Int.tdiv_eq_ediv hp (by norm_num : (0 : ℤ) ≤ 588)]
    omega
  · rw [Int.tdiv_eq_ediv hp (by norm_num : (0 : ℤ) ≤ 28)]
    omega
  · rw [Int.tdiv_eq_ediv hp (by norm_num : (0 : ℤ) ≤ 28)]
    omega

/-- Witness for the amended C2 at U+D55C. -/
theorem indices_bounds_witness :
    ∃ a b f : ℤ, getInitialIndex ((0xD55C : ℕ) : ℚ) = (a : ℚ) ∧
      getMedialIndex ((0xD55C : ℕ) : ℚ) = (b : ℚ) ∧
      getFinalIndex ((0xD55C : ℕ) : ℚ) = (f : ℚ) ∧
      0 ≤ a ∧ a < 19 ∧ 0 ≤ b ∧ b < 21 ∧ 0 ≤ f ∧ f < 28 :=
  indices_bounds 0xD55C (by decide) (by decide)

/-- C3: on every non-empty input, `getGraphemeList` succeeds with exactly one
`GraphemeResult` per letter of the code-point iteration, in input order (the
i-th record is the decomposition of the i-th letter). -/
theorem decompose_one_record_per_letter (word : JSString) (h : word ≠ []) :
    ∃ rs, getGraphemeList word = Except.ok rs ∧
      rs = (splitWord word).map decomposeLetterOk ∧
      rs.length = codePointCount word :=
  ⟨_, getGraphemeList_eq_map word h, rfl, by simp [codePointCount]⟩

/-- Witness for C3 on the three-letter input "a한1". -/
theorem decompose_one_record_per_letter_witness :
    ∃ rs, getGraphemeList [0x61, 0xD55C, 0x31] = Except.ok rs ∧
      rs = (splitWord [0x61, 0xD55C, 0x31]).map decomposeLetterOk ∧
      rs.length = codePointCount [0x61, 0xD55C, 0x31] :=
  decompose_one_record_per_letter [0x61, 0xD55C, 0x31] (by decide)

/-- C4: the regex class `[ㄱ-ㅎ|가-힣]` contains a literal `|` (U+007C), so
the non-Korean letter "|" is classified as Korean and decomposed into
meaningless jamo instead of being passed through as
`{isKorean: false, initial: "|"}`. -/
theorem pipe_decomposed_as_korean :
    getGraphemeList [0x7C] = Except.ok
      [{ isKorean := true, initial := [0x10B5],
         medial := some [0x1152], final := some [0x11A3] }] := by
  rw [getGraphemeList_single_eval 0x7C (by decide)]
  exact congrArg Except.ok (by decide)

/-- C5, counterexample: `decompose("한")` does not return the compatibility
jamo ㅎ/ㅏ/ㄴ (U+314E/U+314F/U+3134) that the example in the spec writes. -/
theorem han_not_compatibility_jamo :
    getGraphemeList [0xD55C] ≠ Except.ok
      [{ isKorean := true, initial := [0x314E],
         medial := some [0x314F], final := some [0x3134] }] := by
  rw [getGraphemeList_single_eval 0xD55C (by decide)]
  intro hcontra
  exact absurd (Except.ok.inj hcontra) (by decide)

/-- C5, amended: `decompose("한")` returns one Variant-A record whose
components are the conjoining jamo ᄒ (U+1112), ᅡ (U+1161), ᆫ (U+11AB) —
the Hangul-Jamo-block counterparts of ㅎ, ㅏ, ㄴ. -/
theorem han_decomposition :
    getGraphemeList [0xD55C] = Except.ok
      [{ isKorean := true, initial := [0x1112],
         medial := some [0x1161], final := some [0x11AB] }] := by
  rw [getGraphemeList_single_eval 0xD55C (by decide)]
  exact congrArg Except.ok (by decide)

/-- C6: for every composed syllable whose final index is 0, the final field
still holds the one-character string at `FINAL_BASE + 0 = U+11A7`, not a
null or an absent field. -/
theorem final_zero_yields_fill (u : ℕ) (h1 : 0xAC00 ≤ u) (h2 : u ≤ 0xD7A3)
    (h0 : getFinalIndex (u : ℚ) = 0) :
    ∃ ini med, getGraphemeList [u] = Except.ok
      [{ isKorean := true, initial := ini,
         medial := some med, final := some [0x11A7] }] := by
  have hm : matchKorean [u] = true := by
    simp [matchKorean, inKoreanClass]
    omega
  have hf0 : (u : ℤ) - 0xAC00 - 28 * Int.tdiv ((u : ℤ) - 0xAC00) 28 = 0 := by
    have hq := (getFinalIndex_natCast u).symm.trans h0
    exact_mod_cast hq
  have hfl : ((((u : ℤ) - 0xAC00 - 28 * Int.tdiv ((u : ℤ) - 0xAC00) 28) +
      0x11A7).emod 65536).toNat = 0x11A7 := by
    rw [hf0]
    decide
  refine ⟨[((((u : ℤ) - 0xAC00) / 588 + 0x1100).emod 65536).toNat],
    [((((u : ℤ) - 0xAC00) / 28 - 21 * Int.tdiv ((u : ℤ) - 0xAC00) 588 +
      0x1161).emod 65536).toNat], ?_⟩
  rw [getGraphemeList_single_eval u hm, hfl]

/-- Witness for C6 at the syllable "가" (U+AC00, final index 0). -/
theorem final_zero_yields_fill_witness :
    ∃ ini med, getGraphemeList [0xAC00] = Except.ok
      [{ isKorean := true, initial := ini,
         medial := some med, final := some [0x11A7] }] :=
  final_zero_yields_fill 0xAC00 (by decide) (by decide)
    (by rw [getFinalIndex_natCast]
        exact_mod_cast congrArg (fun z : ℤ => (z : ℚ))
          (by decide : ((0xAC00 : ℕ) : ℤ) - 0xAC00 -
            28 * Int.tdiv (((0xAC00 : ℕ) : ℤ) - 0xAC00) 28 = 0))

/-- C7: `getGraphemeList` fails (with the empty-input error) exactly on the
empty string; on every non-empty input the check does not fire and no error
escapes. -/
theorem error_iff_empty (word : JSString) :
    (∃ e, getGraphemeList word = Except.error e) ↔ word = [] := by
  constructor
  · rintro ⟨e, he⟩
    by_contra hne
    rw [getGraphemeList_eq_map word hne] at he
    exact Except.noConfusion he
  · rintro rfl
    exact ⟨_, rfl⟩

/-- C8: every standalone Jamo consonant U+3131–U+314E passes the Korean
classification, raises no error, and yields a Variant-A (`isKorean: true`)
record from the same unconditional syllable arithmetic. -/
theorem jamo_variantA_no_error (u : ℕ) (h1 : 0x3131 ≤ u) (h2 : u ≤ 0x314E) :
    ∃ ini med fin, getGraphemeList [u] = Except.ok
      [{ isKorean := true, initial := ini,
         medial := some med, final := some fin }] := by
  have hm : matchKorean [u] = true := by
    simp [matchKorean, inKoreanClass]
    omega
  exact ⟨_, _, _, getGraphemeList_single_eval u hm⟩

/-- Witness for C8 at ㄱ (U+3131). -/
theorem jamo_variantA_no_error_witness :
    ∃ ini med fin, getGraphemeList [0x3131] = Except.ok
      [{ isKorean := true, initial := ini,
         medial := some med, final := some fin }] :=
  jamo_variantA_no_error 0x3131 (by decide) (by decide)

/-- C9, counterexample: the input 😀 (U+1F600, one code point, two UTF-16
units) makes `getUnicode` throw, refuting "returns the scalar value whenever
the input consists of exactly one code point". -/
theorem getUnicode_errors_on_astral_codepoint :
    codePointCount [0xD83D, 0xDE00] = 1 ∧
      getUnicode [0xD83D, 0xDE00] = Except.error "매개 변수는 한 글자여야 합니다." :=
  ⟨rfl, rfl⟩

/-- C9, amended: `getUnicode` succeeds exactly when its input is one UTF-16
code unit long, returning the value of that unit (the code point, for BMP input),
and throws the one-letter error otherwise. -/
theorem getUnicode_length_spec (letter : JSString) :
    ((∃ q, getUnicode letter = Except.ok q) ↔ letter.length = 1) ∧
    (letter.length ≠ 1 →
      getUnicode letter = Except.error "매개 변수는 한 글자여야 합니다.") ∧
    (∀ u : ℕ, letter = [u] → getUnicode letter = Except.ok ((u : ℕ) : ℚ)) := by
  refine ⟨⟨?_, ?_⟩, ?_, ?_⟩
  · rintro ⟨q, hq⟩
    by_contra hne
    rw [getUnicode, if_pos hne] at hq
    exact Except.noConfusion hq
  · intro h1
    exact ⟨(codePointAt0 letter : ℚ), by rw [getUnicode, if_neg (by simp [h1])]⟩
  · intro h1
    rw [getUnicode, if_pos h1]
  · rintro u rfl
    rfl

/-- Witness for the amended C9 at the single unit "A" (U+0041). -/
theorem getUnicode_length_spec_witness :
    getUnicode [0x41] = Except.ok ((0x41 : ℕ) : ℚ) :=
  (getUnicode_length_spec [0x41]).2.2 0x41 rfl

/-- C10: on every non-empty input, `getGraphemeList` terminates normally —
the internal guards of `getUnicode` and of the index functions are
unreachable from it. -/
theorem decompose_never_throws (word : JSString) (h : word ≠ []) :
    ∃ rs, getGraphemeList word = Except.ok rs :=
  ⟨_, getGraphemeList_eq_map word h⟩

/-- Witness for C10 on "a한1". -/
theorem decompose_never_throws_witness :
    ∃ rs, getGraphemeList [0x61, 0xD55C, 0x31] = Except.ok rs :=
  decompose_never_throws [0x61, 0xD55C, 0x31] (by decide)

end SplitGrapheme
